import Mathlib

/-!
Verification of the blocking mutex `CMutex` from `src/examples/mutex.rs`
(repository `pinned-init`, example program).

The example is concurrent code, so it is embedded as a labelled small-step
transition system over the interleaving of any number of OS threads
(identified by natural numbers).  Every access the source makes to the
shared fields `locked`, `wait_list` and the payload happens inside a
critical section of the internal `SpinLock`; each maximal such critical
section of the source is one atomic transition of the model, while the
spinlock acquisitions themselves, the `park` call and the entry into
`lock()` / `CMutexGuard::drop` are separate transitions, so every
interleaving of the source at the granularity of its shared-memory
accesses is an interleaving of the model.

`std::thread::park`/`unpark` are modelled with the documented token
semantics: `unpark` makes a thread's token available, `park` consumes an
available token and returns (a spurious return of `park` is a separate,
always-enabled transition).
-/

/-- Program counter of one thread with respect to one `CMutex`.
Line numbers refer to `src/examples/mutex.rs`.
* `idle`: not inside `lock()`, holding no guard.
* `acquiring`: inside `lock()`, spinning in `self.spin_lock.acquire()` (line 74).
* `entered`: holds the spinlock, about to read `self.locked.get()` (line 75).
* `waiting`: wait entry is linked, spinlock released, at the `park()` call
  (lines 83-84), parked or about to park.
* `reacquiring`: `park()` returned, spinning in `self.spin_lock.acquire()` (line 85).
* `rechecking`: holds the spinlock, about to re-read `self.locked.get()` (line 82).
* `holding`: `lock()` returned; the thread owns a live `CMutexGuard`.
* `unlocking`: inside `CMutexGuard::drop`, spinning in `acquire()` (line 104).
* `releasing`: holds the spinlock inside `drop`, about to run lines 105-110. -/
inductive PC where
  | idle
  | acquiring
  | entered
  | waiting
  | reacquiring
  | rechecking
  | holding
  | unlocking
  | releasing
deriving DecidableEq, Repr

/-- Pointwise update of a function at one thread id; the model's version of
writing one cell of per-thread state. -/
def upd {α : Type} (f : Nat → α) (x : Nat) (v : α) : Nat → α :=
  fun y => if y = x then v else f y

/-- Modelled from the spec: the intrusive linked list lives in
`src/examples/linked_list.rs`, which is not under `src/`; §4.2 of the spec
fixes its interface.  Because every list access in `mutex.rs` happens under
the spinlock, the circular intrusive list of wait entries is modelled as the
Lean list of the waiting threads' ids in list order, sentinel omitted,
`next`-of-sentinel first. -/
def ListHead.new : List Nat := []

/-- Modelled from the spec: `insert_prev(head)` splices a new node
immediately before the sentinel, i.e. at the tail of the queue (§4.2). -/
def ListHead.insertPrev (l : List Nat) (t : Nat) : List Nat := l ++ [t]

/-- Modelled from the spec: `next(head)` returns the first real entry after
the sentinel, or none if the list is empty (§4.2). -/
def ListHead.next (l : List Nat) : Option Nat := l.head?

/-- Modelled from the spec: destroying a wait entry unsplices the node from
wherever it currently sits (§4.2). -/
def ListHead.remove (l : List Nat) (t : Nat) : List Nat := l.erase t

/-- Global state of one `CMutex<T>` together with the threads using it.
* `spin`: `CMutex.spin_lock` — `none` when the atomic flag is `false`,
  `some t` when thread `t` holds the spinlock.
* `locked`: `CMutex.locked`.
* `waitList`: `CMutex.wait_list`, the ids of the threads whose `WaitEntry`
  is currently linked, in list order (head of the queue first).
* `data`: `CMutex.data`, the protected payload.
* `pc`: each thread's program counter.
* `token`: each thread's park/unpark token (`true` = an unpark is pending).
* `stamp`, `clock`: ghost instrumentation, no source counterpart: `clock`
  counts wait-entry insertions and `stamp t` records at which tick thread
  `t`'s current entry was inserted, so that "earliest-queued" is statable. -/
structure MState (T : Type) where
  spin : Option Nat
  locked : Bool
  waitList : List Nat
  data : T
  pc : Nat → PC
  token : Nat → Bool
  stamp : Nat → Nat
  clock : Nat

/-- Labels of the transitions; each carries the id of the acting thread. -/
inductive Label (T : Type) where
  | callLock (t : Nat)
  | lockAcq (t : Nat)
  | fastPath (t : Nat)
  | enqueue (t : Nat)
  | unparkRet (t : Nat)
  | spuriousWake (t : Nat)
  | relockAcq (t : Nat)
  | recheckBusy (t : Nat)
  | lockExit (t : Nat)
  | callUnlock (t : Nat)
  | unlockAcq (t : Nat)
  | unlockBody (t : Nat)
  | write (t : Nat) (f : T → T)

/-- Small-step transition relation of `src/examples/mutex.rs`, one
constructor per atomic step of the source:
* `callLock`: a thread enters `CMutex::lock` (line 73).
* `lockAcq`: `SpinLock::acquire` (line 74): the compare-exchange of the
  atomic flag from `false` to `true` succeeds (lines 27-31).
* `fastPath`: lines 75 (reads `false`), 89-91: set `locked`, build the
  guard, drop `sguard` when the function returns.
* `enqueue`: lines 75 (reads `true`), 76-79 (stack-pin a `WaitEntry`,
  splicing it at the tail), 82 (the `while` reads `true`; the spinlock was
  held throughout, so `locked` is unchanged since line 75), 83 (`drop(sguard)`).
* `unparkRet`: `park()` (line 84) returns by consuming the thread's token.
* `spuriousWake`: `park()` returns spuriously.
* `relockAcq`: `SpinLock::acquire` (line 85) succeeds.
* `recheckBusy`: line 82 re-reads `true`; lines 83-84: release the
  spinlock and park again.
* `lockExit`: line 82 re-reads `false`; line 87 `drop(wait_entry)`
  unsplices the entry; lines 89-91 as in `fastPath`.
* `callUnlock`: the guard's owner enters `CMutexGuard::drop` (line 103).
* `unlockAcq`: `SpinLock::acquire` (line 104) succeeds.
* `unlockBody`: lines 105-110: clear `locked`; if `wait_list.next()` is
  some entry, unpark that entry's thread (the entry is not removed);
  release the spinlock; the guard is gone.
* `write`: the guard's owner mutates the payload through `deref_mut`
  (lines 123-128); stands for any access through the live guard. -/
inductive Step {T : Type} : Label T → MState T → MState T → Prop where
  | callLock {s : MState T} {t : Nat} :
      s.pc t = .idle →
      Step (.callLock t) s { s with pc := upd s.pc t .acquiring }
  | lockAcq {s : MState T} {t : Nat} :
      s.pc t = .acquiring → s.spin = none →
      Step (.lockAcq t) s { s with spin := some t, pc := upd s.pc t .entered }
  | fastPath {s : MState T} {t : Nat} :
      s.pc t = .entered → s.locked = false →
      Step (.fastPath t) s
        { s with locked := true, spin := none, pc := upd s.pc t .holding }
  | enqueue {s : MState T} {t : Nat} :
      s.pc t = .entered → s.locked = true →
      Step (.enqueue t) s
        { s with waitList := ListHead.insertPrev s.waitList t,
                 stamp := upd s.stamp t s.clock, clock := s.clock + 1,
                 spin := none, pc := upd s.pc t .waiting }
  | unparkRet {s : MState T} {t : Nat} :
      s.pc t = .waiting → s.token t = true →
      Step (.unparkRet t) s
        { s with token := upd s.token t false, pc := upd s.pc t .reacquiring }
  | spuriousWake {s : MState T} {t : Nat} :
      s.pc t = .waiting →
      Step (.spuriousWake t) s { s with pc := upd s.pc t .reacquiring }
  | relockAcq {s : MState T} {t : Nat} :
      s.pc t = .reacquiring → s.spin = none →
      Step (.relockAcq t) s { s with spin := some t, pc := upd s.pc t .rechecking }
  | recheckBusy {s : MState T} {t : Nat} :
      s.pc t = .rechecking → s.locked = true →
      Step (.recheckBusy t) s { s with spin := none, pc := upd s.pc t .waiting }
  | lockExit {s : MState T} {t : Nat} :
      s.pc t = .rechecking → s.locked = false →
      Step (.lockExit t) s
        { s with waitList := ListHead.remove s.waitList t, locked := true,
                 spin := none, pc := upd s.pc t .holding }
  | callUnlock {s : MState T} {t : Nat} :
      s.pc t = .holding →
      Step (.callUnlock t) s { s with pc := upd s.pc t .unlocking }
  | unlockAcq {s : MState T} {t : Nat} :
      s.pc t = .unlocking → s.spin = none →
      Step (.unlockAcq t) s { s with spin := some t, pc := upd s.pc t .releasing }
  | unlockBody {s : MState T} {t : Nat} :
      s.pc t = .releasing →
      Step (.unlockBody t) s
        { s with locked := false,
                 token := match ListHead.next s.waitList with
                          | some w => upd s.token w true
                          | none => s.token,
                 spin := none, pc := upd s.pc t .idle }
  | write {s : MState T} {t : Nat} {f : T → T} :
      s.pc t = .holding →
      Step (.write t f) s { s with data := f s.data }

/-- State produced by `CMutex::new(val)` (lines 61-70): empty wait list,
spinlock free, `locked == false`, payload `val`; no thread is interacting
with the mutex yet, no token is pending. -/
def init {T : Type} (val : T) : MState T :=
  { spin := none, locked := false, waitList := ListHead.new, data := val,
    pc := fun _ => .idle, token := fun _ => false,
    stamp := fun _ => 0, clock := 0 }

/-- A state is reachable when some interleaving of the threads' steps
produces it from the freshly constructed mutex. -/
def Reachable {T : Type} (val : T) (s : MState T) : Prop :=
  Relation.ReflTransGen (fun a b => ∃ l : Label T, Step l a b) (init val) s

/-- Program counters at which a thread holds the internal spinlock. -/
def OwnerPC : PC → Bool
  | .entered | .rechecking | .releasing => true
  | _ => false

/-- Program counters at which a thread owns a live `CMutexGuard`: `lock()`
has returned one and `CMutexGuard::drop` has not yet finished. -/
def GuardPC : PC → Bool
  | .holding | .unlocking | .releasing => true
  | _ => false

/-- Program counters at which a thread's `WaitEntry` is linked into the
wait list. -/
def WaitPC : PC → Bool
  | .waiting | .reacquiring | .rechecking => true
  | _ => false

theorem upd_same {α : Type} (f : Nat → α) (x : Nat) (v : α) : upd f x v x = v := by
  simp [upd]

theorem upd_ne {α : Type} (f : Nat → α) {x y : Nat} (v : α) (h : y ≠ x) :
    upd f x v y = f y := by
  simp [upd, h]

theorem pc_pred_eq {p : PC → Bool} {f : Nat → PC} {t : Nat} {v : PC}
    (hv : p v = p (f t)) (u : Nat) : p (upd f t v u) = p (f u) := by
  by_cases hu : u = t
  · subst hu; rw [upd_same, hv]
  · rw [upd_ne _ _ hu]

/-- Inductive invariant of the model, every part of which the source
maintains because all accesses to `locked` and `wait_list` happen under the
spinlock:
* `spinOwner`: the spinlock is held by exactly the thread whose program
  counter sits inside one of its critical sections.
* `guardUniq`: at most one thread owns a live guard.
* `lockedIff`: `locked` is `true` exactly when some live guard exists.
* `waitMem`: a thread's id is in the wait list exactly when that thread is
  between splicing its entry in and unsplicing it.
* `nodup`: no thread has two entries in the wait list.
* `sorted`: the ghost insertion stamps strictly increase along the list,
  i.e. the list orders waiters by the time their entry was spliced in.
* `stampLt`: every stamp in the list is below the ghost clock. -/
structure MutexInv {T : Type} (s : MState T) : Prop where
  spinOwner : ∀ t, s.spin = some t ↔ OwnerPC (s.pc t) = true
  guardUniq : ∀ t u, GuardPC (s.pc t) = true → GuardPC (s.pc u) = true → t = u
  lockedIff : s.locked = true ↔ ∃ t, GuardPC (s.pc t) = true
  waitMem : ∀ t, t ∈ s.waitList ↔ WaitPC (s.pc t) = true
  nodup : s.waitList.Nodup
  sorted : s.waitList.Pairwise (fun a b => s.stamp a < s.stamp b)
  stampLt : ∀ t, t ∈ s.waitList → s.stamp t < s.clock

theorem no_guard_of_unlocked {T : Type} {s : MState T} (h : MutexInv s)
    (hl : s.locked = false) (u : Nat) : GuardPC (s.pc u) = false := by
  by_contra hc
  have : s.locked = true := h.lockedIff.mpr ⟨u, by simpa using hc⟩
  rw [hl] at this
  cases this

theorem spin_none_iff {T : Type} {s : MState T} (h : MutexInv s) {t : Nat}
    (ht : OwnerPC (s.pc t) = true) {v : PC} (hv : OwnerPC v = false) :
    ∀ u, (none : Option Nat) = some u ↔ OwnerPC (upd s.pc t v u) = true := by
  intro u
  constructor
  · intro hc; cases hc
  · intro hu
    by_cases hut : u = t
    · subst hut; rw [upd_same, hv] at hu; cases hu
    · rw [upd_ne _ _ hut] at hu
      have h1 := (h.spinOwner t).mpr ht
      have h2 := (h.spinOwner u).mpr hu
      rw [h1] at h2
      exact absurd (Option.some.inj h2) (fun e => hut e.symm)

theorem spin_some_iff {T : Type} {s : MState T} (h : MutexInv s)
    (hfree : s.spin = none) {t : Nat} {v : PC} (hv : OwnerPC v = true) :
    ∀ u, (some t : Option Nat) = some u ↔ OwnerPC (upd s.pc t v u) = true := by
  intro u
  by_cases hut : u = t
  · subst hut; rw [upd_same, hv]; simp
  · rw [upd_ne _ _ hut]
    constructor
    · intro hc; exact absurd (Option.some.inj hc) (fun e => hut e.symm)
    · intro hu
      have := (h.spinOwner u).mpr hu
      rw [hfree] at this
      cases this

theorem guardUniq_upd {T : Type} {s : MState T} (h : MutexInv s) {t : Nat} {v : PC}
    (hg : GuardPC v = GuardPC (s.pc t)) :
    ∀ a b, GuardPC (upd s.pc t v a) = true → GuardPC (upd s.pc t v b) = true → a = b := by
  intro a b ha hb
  rw [pc_pred_eq hg a] at ha
  rw [pc_pred_eq hg b] at hb
  exact h.guardUniq a b ha hb

theorem lockedIff_upd {T : Type} {s : MState T} (h : MutexInv s) {t : Nat} {v : PC}
    (hg : GuardPC v = GuardPC (s.pc t)) :
    s.locked = true ↔ ∃ u, GuardPC (upd s.pc t v u) = true :=
  h.lockedIff.trans (exists_congr fun u => by rw [pc_pred_eq hg u])

theorem waitMem_upd {T : Type} {s : MState T} (h : MutexInv s) {t : Nat} {v : PC}
    (hw : WaitPC v = WaitPC (s.pc t)) :
    ∀ u, u ∈ s.waitList ↔ WaitPC (upd s.pc t v u) = true :=
  fun u => (h.waitMem u).trans (by rw [pc_pred_eq hw u])

theorem pairwise_upd_stamp {l : List Nat} {st : Nat → Nat} {t c : Nat} (hnot : t ∉ l)
    (hp : l.Pairwise (fun a b => st a < st b)) :
    l.Pairwise (fun a b => upd st t c a < upd st t c b) := by
  refine hp.imp_of_mem ?_
  intro a b ha hb hab
  have hat : a ≠ t := fun e => hnot (e ▸ ha)
  have hbt : b ≠ t := fun e => hnot (e ▸ hb)
  rw [upd_ne _ _ hat, upd_ne _ _ hbt]
  exact hab

theorem inv_pcToken {T : Type} {s : MState T} (h : MutexInv s) {t : Nat} {v : PC}
    (tok : Nat → Bool) (ho : OwnerPC v = OwnerPC (s.pc t))
    (hg : GuardPC v = GuardPC (s.pc t)) (hw : WaitPC v = WaitPC (s.pc t)) :
    MutexInv { s with token := tok, pc := upd s.pc t v } :=
  ⟨fun u => (h.spinOwner u).trans (by rw [pc_pred_eq ho u]),
   guardUniq_upd h hg, lockedIff_upd h hg, waitMem_upd h hw,
   h.nodup, h.sorted, h.stampLt⟩

theorem inv_spinAcq {T : Type} {s : MState T} (h : MutexInv s) {t : Nat} {v : PC}
    (hfree : s.spin = none) (ho : OwnerPC v = true)
    (hg : GuardPC v = GuardPC (s.pc t)) (hw : WaitPC v = WaitPC (s.pc t)) :
    MutexInv { s with spin := some t, pc := upd s.pc t v } :=
  ⟨spin_some_iff h hfree ho, guardUniq_upd h hg, lockedIff_upd h hg, waitMem_upd h hw,
   h.nodup, h.sorted, h.stampLt⟩

theorem inv_spinRel {T : Type} {s : MState T} (h : MutexInv s) {t : Nat} {v : PC}
    (ht : OwnerPC (s.pc t) = true) (ho : OwnerPC v = false)
    (hg : GuardPC v = GuardPC (s.pc t)) (hw : WaitPC v = WaitPC (s.pc t)) :
    MutexInv { s with spin := none, pc := upd s.pc t v } :=
  ⟨spin_none_iff h ht ho, guardUniq_upd h hg, lockedIff_upd h hg, waitMem_upd h hw,
   h.nodup, h.sorted, h.stampLt⟩

/-- Every transition of the model preserves the invariant. -/
theorem inv_step {T : Type} {l : Label T} {s s' : MState T}
    (h : MutexInv s) (hs : Step l s s') : MutexInv s' := by
  cases hs with
  | @callLock s t hpc =>
      exact inv_pcToken h s.token (by rw [hpc]; rfl) (by rw [hpc]; rfl) (by rw [hpc]; rfl)
  | @lockAcq s t hpc hfree =>
      exact inv_spinAcq h hfree rfl (by rw [hpc]; rfl) (by rw [hpc]; rfl)
  | @fastPath s t hpc hlk =>
      refine ⟨spin_none_iff h (by rw [hpc]; rfl) rfl, ?_, ?_, ?_, h.nodup, h.sorted, h.stampLt⟩
      · intro a b ha hb
        dsimp only at ha hb
        by_cases hat : a = t
        · by_cases hbt : b = t
          · rw [hat, hbt]
          · rw [upd_ne _ _ hbt, no_guard_of_unlocked h hlk b] at hb
            cases hb
        · rw [upd_ne _ _ hat, no_guard_of_unlocked h hlk a] at ha
          cases ha
      · refine ⟨fun _ => ⟨t, ?_⟩, fun _ => rfl⟩
        dsimp only
        rw [upd_same]
        rfl
      · intro u
        dsimp only
        by_cases hut : u = t
        · subst hut
          rw [upd_same]
          constructor
          · intro hmem
            exact absurd ((h.waitMem u).mp hmem) (by rw [hpc]; decide)
          · intro hw
            exact absurd hw (by decide)
        · rw [upd_ne _ _ hut]
          exact h.waitMem u
  | @enqueue s t hpc hlk =>
      have hnot : t ∉ s.waitList := fun hmem =>
        absurd ((h.waitMem t).mp hmem) (by rw [hpc]; decide)
      refine ⟨spin_none_iff h (by rw [hpc]; rfl) rfl, guardUniq_upd h (by rw [hpc]; rfl),
              lockedIff_upd h (by rw [hpc]; rfl), ?_, ?_, ?_, ?_⟩
      · intro u
        show u ∈ s.waitList ++ [t] ↔ WaitPC (upd s.pc t .waiting u) = true
        by_cases hut : u = t
        · subst hut
          rw [upd_same]
          simp [WaitPC]
        · rw [upd_ne _ _ hut, List.mem_append, List.mem_singleton]
          constructor
          · rintro (hm | he)
            · exact (h.waitMem u).mp hm
            · exact absurd he hut
          · intro hw
            exact Or.inl ((h.waitMem u).mpr hw)
      · show (s.waitList ++ [t]).Nodup
        rw [List.nodup_append]
        refine ⟨h.nodup, List.nodup_singleton t, ?_⟩
        intro a ha hb
        rw [List.mem_singleton] at hb
        subst hb
        exact hnot ha
      · show (s.waitList ++ [t]).Pairwise
          (fun a b => upd s.stamp t s.clock a < upd s.stamp t s.clock b)
        rw [List.pairwise_append]
        refine ⟨pairwise_upd_stamp hnot h.sorted, List.pairwise_singleton _ _, ?_⟩
        intro a ha b hb
        rw [List.mem_singleton] at hb
        rw [hb]
        have hat : a ≠ t := fun e => hnot (e ▸ ha)
        rw [upd_same, upd_ne _ _ hat]
        exact h.stampLt a ha
      · intro u hu
        show upd s.stamp t s.clock u < s.clock + 1
        have hu' : u ∈ s.waitList ++ [t] := hu
        rcases List.mem_append.mp hu' with hm | he
        · have hut : u ≠ t := fun e => hnot (e ▸ hm)
          rw [upd_ne _ _ hut]
          exact Nat.lt_succ_of_lt (h.stampLt u hm)
        · rw [List.mem_singleton] at he
          subst he
          rw [upd_same]
          exact Nat.lt_succ_self _
  | @unparkRet s t hpc htok =>
      exact inv_pcToken h _ (by rw [hpc]; rfl) (by rw [hpc]; rfl) (by rw [hpc]; rfl)
  | @spuriousWake s t hpc =>
      exact inv_pcToken h s.token (by rw [hpc]; rfl) (by rw [hpc]; rfl) (by rw [hpc]; rfl)
  | @relockAcq s t hpc hfree =>
      exact inv_spinAcq h hfree rfl (by rw [hpc]; rfl) (by rw [hpc]; rfl)
  | @recheckBusy s t hpc hlk =>
      exact inv_spinRel h (by rw [hpc]; rfl) rfl (by rw [hpc]; rfl) (by rw [hpc]; rfl)
  | @lockExit s t hpc hlk =>
      refine ⟨spin_none_iff h (by rw [hpc]; rfl) rfl, ?_, ?_, ?_, ?_, ?_, ?_⟩
      · intro a b ha hb
        dsimp only at ha hb
        by_cases hat : a = t
        · by_cases hbt : b = t
          · rw [hat, hbt]
          · rw [upd_ne _ _ hbt, no_guard_of_unlocked h hlk b] at hb
            cases hb
        · rw [upd_ne _ _ hat, no_guard_of_unlocked h hlk a] at ha
          cases ha
      · refine ⟨fun _ => ⟨t, ?_⟩, fun _ => rfl⟩
        dsimp only
        rw [upd_same]
        rfl
      · intro u
        show u ∈ s.waitList.erase t ↔ WaitPC (upd s.pc t .holding u) = true
        rw [h.nodup.mem_erase_iff]
        by_cases hut : u = t
        · subst hut
          rw [upd_same]
          simp [WaitPC]
        · rw [upd_ne _ _ hut]
          constructor
          · rintro ⟨-, hm⟩
            exact (h.waitMem u).mp hm
          · intro hw
            exact ⟨hut, (h.waitMem u).mpr hw⟩
      · exact h.nodup.erase t
      · exact h.sorted.sublist (List.erase_sublist t s.waitList)
      · intro u hu
        exact h.stampLt u (List.mem_of_mem_erase hu)
  | @callUnlock s t hpc =>
      exact inv_pcToken h s.token (by rw [hpc]; rfl) (by rw [hpc]; rfl) (by rw [hpc]; rfl)
  | @unlockAcq s t hpc hfree =>
      exact inv_spinAcq h hfree rfl (by rw [hpc]; rfl) (by rw [hpc]; rfl)
  | @unlockBody s t hpc =>
      have hguards : ∀ u, GuardPC (upd s.pc t PC.idle u) = false := by
        intro u
        by_cases hut : u = t
        · subst hut
          rw [upd_same]
          rfl
        · rw [upd_ne _ _ hut]
          cases hh : GuardPC (s.pc u)
          · rfl
          · exact absurd (h.guardUniq u t hh (by rw [hpc]; rfl)) hut
      refine ⟨spin_none_iff h (by rw [hpc]; rfl) rfl, ?_, ?_, ?_, h.nodup, h.sorted, h.stampLt⟩
      · intro a b ha hb
        dsimp only at ha
        rw [hguards a] at ha
        cases ha
      · constructor
        · intro hc
          cases hc
        · rintro ⟨u, hu⟩
          dsimp only at hu
          rw [hguards u] at hu
          cases hu
      · intro u
        dsimp only
        by_cases hut : u = t
        · subst hut
          rw [upd_same]
          constructor
          · intro hm
            exact absurd ((h.waitMem u).mp hm) (by rw [hpc]; decide)
          · intro hw
            exact absurd hw (by decide)
        · rw [upd_ne _ _ hut]
          exact h.waitMem u
  | @write s t f hpc =>
      exact ⟨h.spinOwner, h.guardUniq, h.lockedIff, h.waitMem, h.nodup, h.sorted, h.stampLt⟩

/-- The freshly constructed mutex satisfies the invariant. -/
theorem inv_init {T : Type} (v : T) : MutexInv (init v) := by
  refine ⟨?_, ?_, ?_, ?_, List.nodup_nil, List.Pairwise.nil, ?_⟩
  · intro t
    exact ⟨(fun hc => by cases hc), (fun hc => by cases hc)⟩
  · intro a b ha
    cases ha
  · refine ⟨(fun hc => by cases hc), ?_⟩
    rintro ⟨u, hu⟩
    cases hu
  · intro t
    exact ⟨(fun hm => by cases hm), (fun hw => by cases hw)⟩
  · intro t ht
    cases ht

/-- Every reachable state satisfies the invariant. -/
theorem inv_reachable {T : Type} {v : T} {s : MState T}
    (h : Reachable v s) : MutexInv s := by
  induction h with
  | refl => exact inv_init v
  | tail _ hstep ih =>
      obtain ⟨l, hl⟩ := hstep
      exact inv_step ih hl

/-- Thread `t` currently owns a live `CMutexGuard`: `lock()` has returned
the guard to `t` and `CMutexGuard::drop` has not yet completed. -/
def GuardAlive {T : Type} (s : MState T) (t : Nat) : Prop :=
  GuardPC (s.pc t) = true

instance {T : Type} (s : MState T) (t : Nat) : Decidable (GuardAlive s t) := by
  unfold GuardAlive
  infer_instance

/-- Memory orderings of `core::sync::atomic`, as data: the orderings are
annotations on the atomic operations, recorded here so the source's choice
of orderings is checkable. -/
inductive MemOrder where
  | relaxed
  | acquire
  | release
  | acqrel
  | seqcst
deriving DecidableEq

/-- Arguments of a `compare_exchange` call on an `AtomicBool`. -/
structure CasCall where
  expected : Bool
  desired : Bool
  success : MemOrder
  failure : MemOrder
deriving DecidableEq

/-- Arguments of a `store` call on an `AtomicBool`. -/
structure StoreCall where
  value : Bool
  ord : MemOrder
deriving DecidableEq

/-- The compare-exchange performed by `SpinLock::acquire`
(src/examples/mutex.rs line 29):
`compare_exchange(false, true, Ordering::Acquire, Ordering::Relaxed)`. -/
def spinLockAcquireCas : CasCall :=
  { expected := false, desired := true,
    success := MemOrder.acquire, failure := MemOrder.relaxed }

/-- The store performed by `SpinLockGuard`'s `Drop` implementation
(src/examples/mutex.rs line 48): `store(false, Ordering::Release)`. -/
def spinLockGuardDropStore : StoreCall :=
  { value := false, ord := MemOrder.release }

/-- Modelled from the spec: the error type of the in-place initializers
produced by the `pin_init!` / `stack_pin_init!` macros of the `pinned-init`
library (the library itself is not under `src/`).  Spec §7: "Construction
failure: none expected; in-place construction of the Mutex or a Wait Entry
is defined to be infallible in this design."  The `match e {}` on
src/examples/mutex.rs line 79 requires exactly this: the error type is
uninhabited. -/
def InitError : Type := Empty

/-- `CMutex::new(val)` (src/examples/mutex.rs lines 61-70): in-place
construction of a mutex wrapping `val`; returns the initial system state
(empty wait list, spinlock free, `locked == false`, payload `val`).
Fallible in type only — the error type is uninhabited. -/
def CMutex.new {T : Type} (val : T) : Except InitError (MState T) :=
  Except.ok (init val)

/-- `WaitEntry::insert_new(list)` (src/examples/mutex.rs lines 138-146):
captures the current thread's identity (`t`) and splices a new entry at
the tail of the wait list via `ListHead::insert_prev`.  Fallible in type
only — the error type is uninhabited. -/
def WaitEntry.insert_new (t : Nat) (l : List Nat) : Except InitError (List Nat) :=
  Except.ok (ListHead.insertPrev l t)

/-- Whether a label is a payload access through a live guard rather than a
step of the locking protocol itself. -/
def Label.isWrite {T : Type} : Label T → Bool
  | .write _ _ => true
  | _ => false

/-- One step of the locking protocol alone (no payload access). -/
def StepNW {T : Type} (a b : MState T) : Prop :=
  ∃ l : Label T, Step l a b ∧ Label.isWrite l = false

/-- Reading the payload through a guard's `Deref`/`DerefMut`
(src/examples/mutex.rs lines 114-128). -/
def CMutexGuard.deref {T : Type} (s : MState T) : T := s.data

theorem locked_becomes_true {T : Type} {l : Label T} {s s' : MState T}
    (hstep : Step l s s') (hf : s.locked = false) (ht : s'.locked = true) :
    ∃ t, (l = Label.fastPath t ∨ l = Label.lockExit t) ∧ s'.pc t = PC.holding := by
  cases hstep with
  | @callLock s t hpc =>
      dsimp only at ht
      rw [hf] at ht
      cases ht
  | @lockAcq s t hpc hfree =>
      dsimp only at ht
      rw [hf] at ht
      cases ht
  | @fastPath s t hpc hlk =>
      refine ⟨t, Or.inl rfl, ?_⟩
      dsimp only
      rw [upd_same]
  | @enqueue s t hpc hlk =>
      rw [hf] at hlk
      cases hlk
  | @unparkRet s t hpc htok =>
      dsimp only at ht
      rw [hf] at ht
      cases ht
  | @spuriousWake s t hpc =>
      dsimp only at ht
      rw [hf] at ht
      cases ht
  | @relockAcq s t hpc hfree =>
      dsimp only at ht
      rw [hf] at ht
      cases ht
  | @recheckBusy s t hpc hlk =>
      rw [hf] at hlk
      cases hlk
  | @lockExit s t hpc hlk =>
      refine ⟨t, Or.inr rfl, ?_⟩
      dsimp only
      rw [upd_same]
  | @callUnlock s t hpc =>
      dsimp only at ht
      rw [hf] at ht
      cases ht
  | @unlockAcq s t hpc hfree =>
      dsimp only at ht
      rw [hf] at ht
      cases ht
  | @unlockBody s t hpc =>
      dsimp only at ht
      cases ht
  | @write s t f hpc =>
      dsimp only at ht
      rw [hf] at ht
      cases ht

theorem locked_becomes_false {T : Type} {l : Label T} {s s' : MState T}
    (hstep : Step l s s') (ht : s.locked = true) (hf : s'.locked = false) :
    ∃ t, l = Label.unlockBody t ∧ s.pc t = PC.releasing := by
  cases hstep with
  | @callLock s t hpc =>
      dsimp only at hf
      rw [ht] at hf
      cases hf
  | @lockAcq s t hpc hfree =>
      dsimp only at hf
      rw [ht] at hf
      cases hf
  | @fastPath s t hpc hlk =>
      dsimp only at hf
      cases hf
  | @enqueue s t hpc hlk =>
      dsimp only at hf
      rw [ht] at hf
      cases hf
  | @unparkRet s t hpc htok =>
      dsimp only at hf
      rw [ht] at hf
      cases hf
  | @spuriousWake s t hpc =>
      dsimp only at hf
      rw [ht] at hf
      cases hf
  | @relockAcq s t hpc hfree =>
      dsimp only at hf
      rw [ht] at hf
      cases hf
  | @recheckBusy s t hpc hlk =>
      dsimp only at hf
      rw [ht] at hf
      cases hf
  | @lockExit s t hpc hlk =>
      dsimp only at hf
      cases hf
  | @callUnlock s t hpc =>
      dsimp only at hf
      rw [ht] at hf
      cases hf
  | @unlockAcq s t hpc hfree =>
      dsimp only at hf
      rw [ht] at hf
      cases hf
  | @unlockBody s t hpc =>
      exact ⟨t, rfl, hpc⟩
  | @write s t f hpc =>
      dsimp only at hf
      rw [ht] at hf
      cases hf

theorem step_data_eq {T : Type} {l : Label T} {s s' : MState T}
    (hstep : Step l s s') (hnw : Label.isWrite l = false) : s'.data = s.data := by
  cases hstep <;> first | rfl | exact Bool.noConfusion hnw

theorem nw_trace_data_eq {T : Type} {a b : MState T}
    (h : Relation.ReflTransGen (@StepNW T) a b) : b.data = a.data := by
  induction h with
  | refl => rfl
  | tail _ hbc ih =>
      obtain ⟨l, hstep, hnw⟩ := hbc
      rw [step_data_eq hstep hnw, ih]

/-- Example run for concrete evaluation: thread 0 takes the lock on the
fast path, thread 1 queues behind it, thread 0 unlocks (unparking 1), and
thread 1 wakes, unlinks its entry and takes the lock.  Each `exS{n+1}` is
the successor state of `exS{n}` under one transition. -/
def exS0 : MState Nat := init 0

def exS1 : MState Nat := { exS0 with pc := upd exS0.pc 0 .acquiring }

def exS2 : MState Nat := { exS1 with spin := some 0, pc := upd exS1.pc 0 .entered }

def exS3 : MState Nat :=
  { exS2 with locked := true, spin := none, pc := upd exS2.pc 0 .holding }

def exS4 : MState Nat := { exS3 with pc := upd exS3.pc 1 .acquiring }

def exS5 : MState Nat := { exS4 with spin := some 1, pc := upd exS4.pc 1 .entered }

def exS6 : MState Nat :=
  { exS5 with waitList := ListHead.insertPrev exS5.waitList 1,
              stamp := upd exS5.stamp 1 exS5.clock, clock := exS5.clock + 1,
              spin := none, pc := upd exS5.pc 1 .waiting }

def exS7 : MState Nat := { exS6 with pc := upd exS6.pc 0 .unlocking }

def exS8 : MState Nat := { exS7 with spin := some 0, pc := upd exS7.pc 0 .releasing }

def exS9 : MState Nat :=
  { exS8 with locked := false,
              token := match ListHead.next exS8.waitList with
                       | some w => upd exS8.token w true
                       | none => exS8.token,
              spin := none, pc := upd exS8.pc 0 .idle }

def exS10 : MState Nat :=
  { exS9 with token := upd exS9.token 1 false, pc := upd exS9.pc 1 .reacquiring }

def exS11 : MState Nat := { exS10 with spin := some 1, pc := upd exS10.pc 1 .rechecking }

def exS12 : MState Nat :=
  { exS11 with waitList := ListHead.remove exS11.waitList 1, locked := true,
               spin := none, pc := upd exS11.pc 1 .holding }

theorem step_ex01 : Step (Label.callLock 0) exS0 exS1 :=
  Step.callLock (by decide)

theorem step_ex12 : Step (Label.lockAcq 0) exS1 exS2 :=
  Step.lockAcq (by decide) (by decide)

theorem step_ex23 : Step (Label.fastPath 0) exS2 exS3 :=
  Step.fastPath (by decide) (by decide)

theorem step_ex34 : Step (Label.callLock 1) exS3 exS4 :=
  Step.callLock (by decide)

theorem step_ex45 : Step (Label.lockAcq 1) exS4 exS5 :=
  Step.lockAcq (by decide) (by decide)

theorem step_ex56 : Step (Label.enqueue 1) exS5 exS6 :=
  Step.enqueue (by decide) (by decide)

theorem step_ex67 : Step (Label.callUnlock 0) exS6 exS7 :=
  Step.callUnlock (by decide)

theorem step_ex78 : Step (Label.unlockAcq 0) exS7 exS8 :=
  Step.unlockAcq (by decide) (by decide)

theorem step_ex89 : Step (Label.unlockBody 0) exS8 exS9 :=
  Step.unlockBody (by decide)

theorem step_ex910 : Step (Label.unparkRet 1) exS9 exS10 :=
  Step.unparkRet (by decide) (by decide)

theorem step_ex1011 : Step (Label.relockAcq 1) exS10 exS11 :=
  Step.relockAcq (by decide) (by decide)

theorem step_ex1112 : Step (Label.lockExit 1) exS11 exS12 :=
  Step.lockExit (by decide) (by decide)

theorem reach_exS2 : Reachable 0 exS2 :=
  Relation.ReflTransGen.tail
    (Relation.ReflTransGen.tail Relation.ReflTransGen.refl ⟨_, step_ex01⟩)
    ⟨_, step_ex12⟩

theorem reach_exS3 : Reachable 0 exS3 :=
  Relation.ReflTransGen.tail reach_exS2 ⟨_, step_ex23⟩

theorem reach_exS5 : Reachable 0 exS5 :=
  Relation.ReflTransGen.tail
    (Relation.ReflTransGen.tail reach_exS3 ⟨_, step_ex34⟩)
    ⟨_, step_ex45⟩

theorem reach_exS6 : Reachable 0 exS6 :=
  Relation.ReflTransGen.tail reach_exS5 ⟨_, step_ex56⟩

theorem reach_exS8 : Reachable 0 exS8 :=
  Relation.ReflTransGen.tail
    (Relation.ReflTransGen.tail reach_exS6 ⟨_, step_ex67⟩)
    ⟨_, step_ex78⟩

theorem reach_exS9 : Reachable 0 exS9 :=
  Relation.ReflTransGen.tail reach_exS8 ⟨_, step_ex89⟩

theorem reach_exS11 : Reachable 0 exS11 :=
  Relation.ReflTransGen.tail
    (Relation.ReflTransGen.tail reach_exS9 ⟨_, step_ex910⟩)
    ⟨_, step_ex1011⟩

theorem reach_exS12 : Reachable 0 exS12 :=
  Relation.ReflTransGen.tail reach_exS11 ⟨_, step_ex1112⟩

theorem nw_reach_exS12 : Relation.ReflTransGen (@StepNW Nat) exS0 exS12 := by
  have h01 : StepNW exS0 exS1 := ⟨_, step_ex01, rfl⟩
  have h12 : StepNW exS1 exS2 := ⟨_, step_ex12, rfl⟩
  have h23 : StepNW exS2 exS3 := ⟨_, step_ex23, rfl⟩
  have h34 : StepNW exS3 exS4 := ⟨_, step_ex34, rfl⟩
  have h45 : StepNW exS4 exS5 := ⟨_, step_ex45, rfl⟩
  have h56 : StepNW exS5 exS6 := ⟨_, step_ex56, rfl⟩
  have h67 : StepNW exS6 exS7 := ⟨_, step_ex67, rfl⟩
  have h78 : StepNW exS7 exS8 := ⟨_, step_ex78, rfl⟩
  have h89 : StepNW exS8 exS9 := ⟨_, step_ex89, rfl⟩
  have h910 : StepNW exS9 exS10 := ⟨_, step_ex910, rfl⟩
  have h1011 : StepNW exS10 exS11 := ⟨_, step_ex1011, rfl⟩
  have h1112 : StepNW exS11 exS12 := ⟨_, step_ex1112, rfl⟩
  exact .tail (.tail (.tail (.tail (.tail (.tail (.tail (.tail (.tail (.tail (.tail
    (.tail .refl h01) h12) h23) h34) h45) h56) h67) h78) h89) h910) h1011) h1112

/-- C1: for every `CMutex` instance and every interleaving of concurrent
`lock()` calls and `CMutexGuard` destructions, at most one `CMutexGuard`
for that mutex is alive at any time (mutual exclusion of the payload). -/
theorem c1_mutual_exclusion {T : Type} {val : T} {s : MState T}
    (hreach : Reachable val s) (t u : Nat)
    (ht : GuardAlive s t) (hu : GuardAlive s u) : t = u :=
  (inv_reachable hreach).guardUniq t u ht hu

theorem c1_mutual_exclusion_witness : GuardAlive exS3 0 ∧ 0 = 0 :=
  ⟨by decide, c1_mutual_exclusion reach_exS3 0 0 (by decide) (by decide)⟩

/-- C2: in every reachable state, `locked` is true iff some `CMutexGuard`
currently exists; the only transitions turning `locked` from false to true
are the two guard-returning exits of `lock()` (fast path and contended
exit), and the only transition turning it back to false is
`CMutexGuard::drop`'s critical section. -/
theorem c2_locked_iff_guard :
    (∀ (T : Type) (val : T) (s : MState T), Reachable val s →
        (s.locked = true ↔ ∃ t, GuardAlive s t))
    ∧ (∀ (T : Type) (l : Label T) (s s' : MState T), Step l s s' →
        s.locked = false → s'.locked = true →
        ∃ t, (l = Label.fastPath t ∨ l = Label.lockExit t) ∧ s'.pc t = PC.holding)
    ∧ (∀ (T : Type) (l : Label T) (s s' : MState T), Step l s s' →
        s.locked = true → s'.locked = false →
        ∃ t, l = Label.unlockBody t ∧ s.pc t = PC.releasing) :=
  ⟨fun _ _ _ h => (inv_reachable h).lockedIff,
   fun _ _ _ _ hs hf ht => locked_becomes_true hs hf ht,
   fun _ _ _ _ hs ht hf => locked_becomes_false hs ht hf⟩

theorem c2_locked_iff_guard_witness :
    (exS3.locked = true ↔ ∃ t, GuardAlive exS3 t)
    ∧ (∃ t, ((Label.fastPath 0 : Label Nat) = Label.fastPath t
          ∨ (Label.fastPath 0 : Label Nat) = Label.lockExit t) ∧ exS3.pc t = PC.holding)
    ∧ (∃ t, (Label.unlockBody 0 : Label Nat) = Label.unlockBody t
          ∧ exS8.pc t = PC.releasing) :=
  ⟨c2_locked_iff_guard.1 Nat 0 exS3 reach_exS3,
   c2_locked_iff_guard.2.1 Nat (Label.fastPath 0) exS2 exS3 step_ex23
     (by decide) (by decide),
   c2_locked_iff_guard.2.2 Nat (Label.unlockBody 0) exS8 exS9 step_ex89
     (by decide) (by decide)⟩

/-- C3: `lock()` follows the specified algorithm.  Fast path: under the
spinlock, if `locked` is false it sets `locked` and returns the guard
without touching the wait list.  Contended path: under the spinlock it
splices a `WaitEntry` at the tail; each re-check that still reads `locked
== true` releases the spinlock and parks again; the re-check that reads
false unlinks the entry, sets `locked` and returns the guard. -/
theorem c3_lock_algorithm :
    (∀ (T : Type) (val : T) (s s' : MState T) (t : Nat), Reachable val s →
        Step (Label.fastPath t) s s' →
        s.spin = some t ∧ s.locked = false ∧ s'.locked = true
          ∧ s'.pc t = PC.holding ∧ s'.waitList = s.waitList ∧ s'.spin = none)
    ∧ (∀ (T : Type) (val : T) (s s' : MState T) (t : Nat), Reachable val s →
        Step (Label.enqueue t) s s' →
        s.spin = some t ∧ s.locked = true
          ∧ s'.waitList = s.waitList ++ [t] ∧ s'.pc t = PC.waiting ∧ s'.spin = none)
    ∧ (∀ (T : Type) (s s' : MState T) (t : Nat),
        Step (Label.recheckBusy t) s s' →
        s.locked = true ∧ s'.pc t = PC.waiting ∧ s'.spin = none)
    ∧ (∀ (T : Type) (s s' : MState T) (t : Nat),
        Step (Label.lockExit t) s s' →
        s.locked = false ∧ s'.waitList = s.waitList.erase t ∧ s'.locked = true
          ∧ s'.pc t = PC.holding ∧ s'.spin = none) := by
  refine ⟨?_, ?_, ?_, ?_⟩
  · intro T val s s' t h hs
    cases hs with
    | fastPath hpc hlk =>
        refine ⟨((inv_reachable h).spinOwner t).mpr (by rw [hpc]; rfl), hlk, rfl, ?_, rfl, rfl⟩
        dsimp only
        rw [upd_same]
  · intro T val s s' t h hs
    cases hs with
    | enqueue hpc hlk =>
        refine ⟨((inv_reachable h).spinOwner t).mpr (by rw [hpc]; rfl), hlk, rfl, ?_, rfl⟩
        dsimp only
        rw [upd_same]
  · intro T s s' t hs
    cases hs with
    | recheckBusy hpc hlk =>
        refine ⟨hlk, ?_, rfl⟩
        dsimp only
        rw [upd_same]
  · intro T s s' t hs
    cases hs with
    | lockExit hpc hlk =>
        refine ⟨hlk, rfl, rfl, ?_, rfl⟩
        dsimp only
        rw [upd_same]

theorem c3_lock_algorithm_witness :
    (exS2.spin = some 0 ∧ exS2.locked = false ∧ exS3.locked = true
      ∧ exS3.pc 0 = PC.holding ∧ exS3.waitList = exS2.waitList ∧ exS3.spin = none)
    ∧ (exS5.spin = some 1 ∧ exS5.locked = true
      ∧ exS6.waitList = exS5.waitList ++ [1] ∧ exS6.pc 1 = PC.waiting
      ∧ exS6.spin = none) :=
  ⟨c3_lock_algorithm.1 Nat 0 exS2 exS3 0 reach_exS2 step_ex23,
   c3_lock_algorithm.2.1 Nat 0 exS5 exS6 1 reach_exS5 step_ex56⟩

/-- C4: on guard destruction, under the spinlock `locked` is set to false;
if the wait list is non-empty exactly one unpark is sent, targeted at the
thread in the first entry, which is not removed from the list; if the wait
list is empty, no unpark is issued and the list stays empty. -/
theorem c4_unlock_behavior :
    ∀ (T : Type) (s s' : MState T) (t : Nat), Step (Label.unlockBody t) s s' →
      s'.locked = false ∧ s'.waitList = s.waitList
      ∧ (∀ w ws, s.waitList = w :: ws →
          s'.token w = true ∧ ∀ u, u ≠ w → s'.token u = s.token u)
      ∧ (s.waitList = [] → s'.token = s.token) := by
  intro T s s' t hs
  cases hs with
  | unlockBody hpc =>
      refine ⟨rfl, rfl, ?_, ?_⟩
      · intro w ws hw
        constructor
        · show (match ListHead.next s.waitList with
                | some x => upd s.token x true
                | none => s.token) w = true
          rw [hw]
          show (upd s.token w true) w = true
          rw [upd_same]
        · intro u hu
          show (match ListHead.next s.waitList with
                | some x => upd s.token x true
                | none => s.token) u = s.token u
          rw [hw]
          show (upd s.token w true) u = s.token u
          rw [upd_ne _ _ hu]
      · intro hw
        show (match ListHead.next s.waitList with
              | some x => upd s.token x true
              | none => s.token) = s.token
        rw [hw]
        rfl

theorem c4_unlock_behavior_witness :
    exS9.locked = false ∧ exS9.waitList = exS8.waitList
    ∧ exS9.token 1 = true ∧ exS9.token 0 = exS8.token 0 :=
  ⟨(c4_unlock_behavior Nat exS8 exS9 0 step_ex89).1,
   (c4_unlock_behavior Nat exS8 exS9 0 step_ex89).2.1,
   ((c4_unlock_behavior Nat exS8 exS9 0 step_ex89).2.2.1 1 [] (by decide)).1,
   ((c4_unlock_behavior Nat exS8 exS9 0 step_ex89).2.2.1 1 [] (by decide)).2 0
     (by decide)⟩

/-- C5: wait-queue order is strict FIFO.  Every new `WaitEntry` is spliced
at the tail via `insert_prev`; wakeup reads the sentinel's `next` entry;
and in every reachable state the entries' ghost insertion stamps strictly
increase along the list, so the head — the thread that is unparked — is the
earliest-inserted among the entries currently in the list. -/
theorem c5_fifo_order :
    (∀ (T : Type) (s s' : MState T) (t : Nat), Step (Label.enqueue t) s s' →
        s'.waitList = ListHead.insertPrev s.waitList t
          ∧ ListHead.insertPrev s.waitList t = s.waitList ++ [t])
    ∧ (∀ (T : Type) (s s' : MState T) (t w : Nat) (ws : List Nat),
        Step (Label.unlockBody t) s s' → s.waitList = w :: ws →
        ListHead.next s.waitList = some w ∧ s'.token w = true)
    ∧ (∀ (T : Type) (val : T) (s : MState T) (w : Nat) (ws : List Nat),
        Reachable val s → s.waitList = w :: ws →
        ∀ u, u ∈ ws → s.stamp w < s.stamp u) := by
  refine ⟨?_, ?_, ?_⟩
  · intro T s s' t hs
    cases hs with
    | enqueue hpc hlk => exact ⟨rfl, rfl⟩
  · intro T s s' t w ws hs hw
    cases hs with
    | unlockBody hpc =>
        refine ⟨by rw [hw]; rfl, ?_⟩
        show (match ListHead.next s.waitList with
              | some x => upd s.token x true
              | none => s.token) w = true
        rw [hw]
        show (upd s.token w true) w = true
        rw [upd_same]
  · intro T val s w ws h hw u hu
    have hsort := (inv_reachable h).sorted
    rw [hw] at hsort
    exact (List.pairwise_cons.mp hsort).1 u hu

theorem c5_fifo_order_witness :
    (exS6.waitList = ListHead.insertPrev exS5.waitList 1)
    ∧ (ListHead.next exS8.waitList = some 1 ∧ exS9.token 1 = true) :=
  ⟨(c5_fifo_order.1 Nat exS5 exS6 1 step_ex56).1,
   c5_fifo_order.2.1 Nat exS8 exS9 0 1 [] step_ex89 (by decide)⟩

/-- C6: `SpinLock::acquire` busy-waits on a compare-exchange of the flag
from false to true with acquire ordering on success and relaxed on failure
(recorded as `spinLockAcquireCas`); the scoped guard's destruction stores
false with release ordering (`spinLockGuardDropStore`); in the model, the
flag becomes held-by-`t` only from the free state, and whenever a thread
leaves one of the spinlock's critical sections — on any exit path — the
flag is released. -/
theorem c6_spinlock_contract :
    spinLockAcquireCas = { expected := false, desired := true,
                           success := MemOrder.acquire, failure := MemOrder.relaxed }
    ∧ spinLockGuardDropStore = { value := false, ord := MemOrder.release }
    ∧ (∀ (T : Type) (l : Label T) (s s' : MState T) (t : Nat), Step l s s' →
        s'.spin = some t → s.spin = none ∨ s.spin = some t)
    ∧ (∀ (T : Type) (l : Label T) (s s' : MState T) (t : Nat), Step l s s' →
        OwnerPC (s.pc t) = true → OwnerPC (s'.pc t) = false → s'.spin = none) := by
  refine ⟨rfl, rfl, ?_, ?_⟩
  · intro T l s s' t hs hspin
    cases hs with
    | lockAcq hpc hfree => exact Or.inl hfree
    | relockAcq hpc hfree => exact Or.inl hfree
    | unlockAcq hpc hfree => exact Or.inl hfree
    | fastPath hpc hlk =>
        dsimp only at hspin
        cases hspin
    | enqueue hpc hlk =>
        dsimp only at hspin
        cases hspin
    | recheckBusy hpc hlk =>
        dsimp only at hspin
        cases hspin
    | lockExit hpc hlk =>
        dsimp only at hspin
        cases hspin
    | unlockBody hpc =>
        dsimp only at hspin
        cases hspin
    | callLock hpc => exact Or.inr hspin
    | unparkRet hpc htok => exact Or.inr hspin
    | spuriousWake hpc => exact Or.inr hspin
    | callUnlock hpc => exact Or.inr hspin
    | write hpc => exact Or.inr hspin
  · intro T l s s' t hs h1 h2
    cases hs with
    | @callLock s u hpc =>
        dsimp only at h2
        by_cases htu : t = u
        · subst htu
          rw [hpc] at h1
          cases h1
        · rw [upd_ne _ _ htu] at h2
          rw [h1] at h2
          cases h2
    | @lockAcq s u hpc hfree =>
        dsimp only at h2
        by_cases htu : t = u
        · subst htu
          rw [hpc] at h1
          cases h1
        · rw [upd_ne _ _ htu] at h2
          rw [h1] at h2
          cases h2
    | fastPath hpc hlk => rfl
    | enqueue hpc hlk => rfl
    | @unparkRet s u hpc htok =>
        dsimp only at h2
        by_cases htu : t = u
        · subst htu
          rw [hpc] at h1
          cases h1
        · rw [upd_ne _ _ htu] at h2
          rw [h1] at h2
          cases h2
    | @spuriousWake s u hpc =>
        dsimp only at h2
        by_cases htu : t = u
        · subst htu
          rw [hpc] at h1
          cases h1
        · rw [upd_ne _ _ htu] at h2
          rw [h1] at h2
          cases h2
    | @relockAcq s u hpc hfree =>
        dsimp only at h2
        by_cases htu : t = u
        · subst htu
          rw [hpc] at h1
          cases h1
        · rw [upd_ne _ _ htu] at h2
          rw [h1] at h2
          cases h2
    | recheckBusy hpc hlk => rfl
    | lockExit hpc hlk => rfl
    | @callUnlock s u hpc =>
        dsimp only at h2
        by_cases htu : t = u
        · subst htu
          rw [hpc] at h1
          cases h1
        · rw [upd_ne _ _ htu] at h2
          rw [h1] at h2
          cases h2
    | @unlockAcq s u hpc hfree =>
        dsimp only at h2
        by_cases htu : t = u
        · subst htu
          rw [hpc] at h1
          cases h1
        · rw [upd_ne _ _ htu] at h2
          rw [h1] at h2
          cases h2
    | unlockBody hpc => rfl
    | write hpc =>
        dsimp only at h2
        rw [h1] at h2
        cases h2

theorem c6_spinlock_contract_witness :
    (exS1.spin = none ∨ exS1.spin = some 0) ∧ exS9.spin = none :=
  ⟨c6_spinlock_contract.2.2.1 Nat (Label.lockAcq 0) exS1 exS2 0 step_ex12 (by decide),
   c6_spinlock_contract.2.2.2 Nat (Label.unlockBody 0) exS8 exS9 0 step_ex89
     (by decide) (by decide)⟩

/-- C7: a spurious or unrelated wakeup is never surfaced: any step that
makes `lock()` return (the acting thread's pc becomes `holding` from a
non-`holding` pc) happens from a state where that thread holds the
spinlock and has read `locked == false`; and a re-check that still reads
`locked == true` releases the spinlock and parks again. -/
theorem c7_spurious_wakeup_recovery :
    (∀ (T : Type) (val : T) (l : Label T) (s s' : MState T) (t : Nat),
        Reachable val s → Step l s s' →
        s.pc t ≠ PC.holding → s'.pc t = PC.holding →
        s.spin = some t ∧ s.locked = false)
    ∧ (∀ (T : Type) (s s' : MState T) (t : Nat),
        Step (Label.recheckBusy t) s s' →
        s.locked = true ∧ s'.pc t = PC.waiting ∧ s'.spin = none) := by
  constructor
  · intro T val l s s' t h hs h1 h2
    cases hs with
    | @fastPath s u hpc hlk =>
        dsimp only at h2
        by_cases htu : t = u
        · subst htu
          exact ⟨((inv_reachable h).spinOwner t).mpr (by rw [hpc]; rfl), hlk⟩
        · rw [upd_ne _ _ htu] at h2
          exact absurd h2 h1
    | @lockExit s u hpc hlk =>
        dsimp only at h2
        by_cases htu : t = u
        · subst htu
          exact ⟨((inv_reachable h).spinOwner t).mpr (by rw [hpc]; rfl), hlk⟩
        · rw [upd_ne _ _ htu] at h2
          exact absurd h2 h1
    | @callLock s u hpc =>
        dsimp only at h2
        by_cases htu : t = u
        · subst htu
          rw [upd_same] at h2
          cases h2
        · rw [upd_ne _ _ htu] at h2
          exact absurd h2 h1
    | @lockAcq s u hpc hfree =>
        dsimp only at h2
        by_cases htu : t = u
        · subst htu
          rw [upd_same] at h2
          cases h2
        · rw [upd_ne _ _ htu] at h2
          exact absurd h2 h1
    | @enqueue s u hpc hlk =>
        dsimp only at h2
        by_cases htu : t = u
        · subst htu
          rw [upd_same] at h2
          cases h2
        · rw [upd_ne _ _ htu] at h2
          exact absurd h2 h1
    | @unparkRet s u hpc htok =>
        dsimp only at h2
        by_cases htu : t = u
        · subst htu
          rw [upd_same] at h2
          cases h2
        · rw [upd_ne _ _ htu] at h2
          exact absurd h2 h1
    | @spuriousWake s u hpc =>
        dsimp only at h2
        by_cases htu : t = u
        · subst htu
          rw [upd_same] at h2
          cases h2
        · rw [upd_ne _ _ htu] at h2
          exact absurd h2 h1
    | @relockAcq s u hpc hfree =>
        dsimp only at h2
        by_cases htu : t = u
        · subst htu
          rw [upd_same] at h2
          cases h2
        · rw [upd_ne _ _ htu] at h2
          exact absurd h2 h1
    | @recheckBusy s u hpc hlk =>
        dsimp only at h2
        by_cases htu : t = u
        · subst htu
          rw [upd_same] at h2
          cases h2
        · rw [upd_ne _ _ htu] at h2
          exact absurd h2 h1
    | @callUnlock s u hpc =>
        dsimp only at h2
        by_cases htu : t = u
        · subst htu
          rw [upd_same] at h2
          cases h2
        · rw [upd_ne _ _ htu] at h2
          exact absurd h2 h1
    | @unlockAcq s u hpc hfree =>
        dsimp only at h2
        by_cases htu : t = u
        · subst htu
          rw [upd_same] at h2
          cases h2
        · rw [upd_ne _ _ htu] at h2
          exact absurd h2 h1
    | @unlockBody s u hpc =>
        dsimp only at h2
        by_cases htu : t = u
        · subst htu
          rw [upd_same] at h2
          cases h2
        · rw [upd_ne _ _ htu] at h2
          exact absurd h2 h1
    | @write s u f hpc =>
        dsimp only at h2
        exact absurd h2 h1
  · intro T s s' t hs
    cases hs with
    | recheckBusy hpc hlk =>
        refine ⟨hlk, ?_, rfl⟩
        dsimp only
        rw [upd_same]

theorem c7_spurious_wakeup_recovery_witness :
    exS11.spin = some 1 ∧ exS11.locked = false :=
  c7_spurious_wakeup_recovery.1 Nat 0 (Label.lockExit 1) exS11 exS12 1
    reach_exS11 step_ex1112 (by decide) (by decide)

/-- C8: the spinlock is never held by a thread while that thread is parked:
in every reachable state, a thread whose pc is at the `park()` call (or
just past it, before re-acquiring) does not hold the spinlock. -/
theorem c8_spinlock_not_held_while_parked :
    ∀ (T : Type) (val : T) (s : MState T), Reachable val s →
      ∀ t, s.pc t = PC.waiting ∨ s.pc t = PC.reacquiring → s.spin ≠ some t := by
  intro T val s h t hpc hspin
  have ho := ((inv_reachable h).spinOwner t).mp hspin
  rcases hpc with he | he <;> rw [he] at ho <;> cases ho

theorem c8_spinlock_not_held_while_parked_witness : exS6.spin ≠ some 1 :=
  c8_spinlock_not_held_while_parked Nat 0 exS6 reach_exS6 1 (Or.inl (by decide))

/-- C9: in-place construction of a `CMutex` and of a `WaitEntry` is
infallible: the initializers' error type is uninhabited — so the `Err`
branch of the stack-pinned `WaitEntry` initialization in `lock()` is
unreachable — and both constructions always return `ok`. -/
theorem c9_infallible_construction :
    IsEmpty InitError
    ∧ (∀ (T : Type) (val : T), CMutex.new val = Except.ok (init val))
    ∧ (∀ (t : Nat) (l : List Nat),
        WaitEntry.insert_new t l = Except.ok (ListHead.insertPrev l t))
    ∧ (∀ (t : Nat) (l : List Nat) (e : InitError),
        WaitEntry.insert_new t l ≠ Except.error e) :=
  ⟨⟨fun e => Empty.elim e⟩,
   fun _ _ => rfl,
   fun _ _ => rfl,
   fun _ _ _ h => Except.noConfusion h⟩

theorem c9_infallible_construction_witness :
    WaitEntry.insert_new 1 [] = Except.ok [1] :=
  c9_infallible_construction.2.2.1 1 []

/-- C10: neither `lock()` nor guard destruction modifies the protected
payload: every protocol step (any transition that is not a payload access
through a live guard) leaves `data` unchanged, so the value read through a
newly returned guard's `Deref` equals the value left by the previous
holder, or the value passed to `CMutex::new` if never written; a `write`
step through the live guard changes it exactly as requested. -/
theorem c10_payload_frame :
    (∀ (T : Type) (l : Label T) (s s' : MState T), Step l s s' →
        Label.isWrite l = false → CMutexGuard.deref s' = CMutexGuard.deref s)
    ∧ (∀ (T : Type) (a b : MState T),
        Relation.ReflTransGen (@StepNW T) a b →
        CMutexGuard.deref b = CMutexGuard.deref a)
    ∧ (∀ (T : Type) (val : T), CMutexGuard.deref (init val) = val)
    ∧ (∀ (T : Type) (s s' : MState T) (t : Nat) (f : T → T),
        Step (Label.write t f) s s' → s'.data = f s.data) := by
  refine ⟨?_, ?_, ?_, ?_⟩
  · intro T l s s' hs hnw
    exact step_data_eq hs hnw
  · intro T a b h
    exact nw_trace_data_eq h
  · intro T val
    rfl
  · intro T s s' t f hs
    cases hs with
    | write hpc => rfl

theorem c10_payload_frame_witness :
    CMutexGuard.deref exS12 = CMutexGuard.deref exS0
    ∧ CMutexGuard.deref exS0 = 0 :=
  ⟨c10_payload_frame.2.1 Nat exS0 exS12 nw_reach_exS12,
   c10_payload_frame.2.2.1 Nat 0⟩
